import Mathlib

/-!
Verification of the event matching and dispatch pipeline of the
github-dispatcher service (src/main.go).

The Go program decodes inbound webhook payloads with `encoding/json`
(`json.Unmarshal` into `GitHubPushEvent`), looks up the first matching
`FilterRule` (`findMatchingRule`), re-serializes the matched rule
(`json.Marshal`) and appends it to a Redis list (`RPush`), inside a
subscription loop (`main`) that processes one message at a time and
shuts down on a signal.

This file embeds those functions shallowly:
  * `Json` is the parsed JSON value; `parseJson` models the syntax
    accepted by `encoding/json` (strings with escapes, numbers without
    leading zeros, whitespace, no trailing data).  Numbers are kept as
    their lexeme, since the program never reads a numeric field.
  * `unmarshalEvent` / `unmarshalRule` model `json.Unmarshal` into the
    two struct types used by the program: object entries are applied in
    order (a later duplicate key overwrites an earlier one), `null` is a
    no-op for any field, an unknown key is ignored, and a value of the
    wrong type is an error.  A key targets a field when it equals the
    field name exactly or under Go's case-folded fallback
    (`bytes.EqualFold`), modelled by `nameMatches`, which is exact for
    the all-ASCII field names of these structs.
  * `ruleToJson` models `json.Marshal` of a `FilterRule`; on a struct of
    strings and a string slice `json.Marshal` cannot fail, which
    `marshalRule` records by always returning `Except.ok`.
  * `handleWebhookMessage` is a direct transcription of the Go function;
    the Redis connection is reduced to the queue contents (a `List Json`)
    plus a transport oracle `pushOk` saying whether the single `RPush`
    round trip succeeds, and the result additionally records the list of
    `RPush` calls that were issued.
  * `runLoop` is the select loop of `main` over an explicit interleaved
    input sequence of messages and shutdown signals.
-/

/-- Parsed JSON value, as produced by the scanner of `encoding/json`.
Numbers are kept as their source lexeme (the program never decodes a
numeric field, so only their syntactic validity matters). -/
inductive Json where
  | null : Json
  | bool : Bool → Json
  | num : String → Json
  | str : String → Json
  | arr : List Json → Json
  | obj : List (String × Json) → Json
deriving Repr

/-- JSON whitespace, as accepted between tokens by `encoding/json`. -/
def isJsonWs (c : Char) : Bool :=
  c == ' ' || c == '\t' || c == '\n' || c == '\r'

/-- Drop leading JSON whitespace. -/
def skipWs (cs : List Char) : List Char :=
  cs.dropWhile isJsonWs

/-- Value of a hex digit, if the character is one (code points 0-9, a-f,
A-F). -/
def hexVal (c : Char) : Option Nat :=
  let n := c.toNat
  if 48 ≤ n && n ≤ 57 then some (n - 48)
  else if 97 ≤ n && n ≤ 102 then some (n - 87)
  else if 65 ≤ n && n ≤ 70 then some (n - 55)
  else none

/-- Read four hex digits (the `XXXX` of a `\uXXXX` escape). -/
def parseHex4 : List Char → Option (Nat × List Char)
  | a :: b :: c :: d :: rest =>
    match hexVal a, hexVal b, hexVal c, hexVal d with
    | some va, some vb, some vc, some vd =>
        some (va * 4096 + vb * 256 + vc * 16 + vd, rest)
    | _, _, _, _ => none
  | _ => none

/-- Decode the body of a JSON string after the opening quote, following
the unquoting of `encoding/json`: the simple escapes, `\uXXXX` with
UTF-16 surrogate pairs, a lone surrogate replaced by U+FFFD, and a bare
control character (below 0x20) rejected. `acc` holds the decoded
characters in reverse. -/
def parseStringBody : Nat → List Char → List Char → Option (String × List Char)
  | 0, _, _ => none
  | _ + 1, _, [] => none
  | fuel + 1, acc, c :: cs =>
    if c == '"' then some (String.mk acc.reverse, cs)
    else if c == '\\' then
      match cs with
      | [] => none
      | e :: cs2 =>
        if e == '"' then parseStringBody fuel ('"' :: acc) cs2
        else if e == '\\' then parseStringBody fuel ('\\' :: acc) cs2
        else if e == '/' then parseStringBody fuel ('/' :: acc) cs2
        else if e == 'b' then parseStringBody fuel ('\x08' :: acc) cs2
        else if e == 'f' then parseStringBody fuel ('\x0c' :: acc) cs2
        else if e == 'n' then parseStringBody fuel ('\n' :: acc) cs2
        else if e == 'r' then parseStringBody fuel ('\r' :: acc) cs2
        else if e == 't' then parseStringBody fuel ('\t' :: acc) cs2
        else if e == 'u' then
          match parseHex4 cs2 with
          | none => none
          | some (n, cs3) =>
            if 0xD800 ≤ n && n ≤ 0xDBFF then
              match cs3 with
              | '\\' :: 'u' :: cs4 =>
                match parseHex4 cs4 with
                | some (m, cs5) =>
                  if 0xDC00 ≤ m && m ≤ 0xDFFF then
                    parseStringBody fuel
                      (Char.ofNat (0x10000 + (n - 0xD800) * 0x400 + (m - 0xDC00)) :: acc) cs5
                  else parseStringBody fuel ('�' :: acc) cs3
                | none => parseStringBody fuel ('�' :: acc) cs3
              | _ => parseStringBody fuel ('�' :: acc) cs3
            else if 0xDC00 ≤ n && n ≤ 0xDFFF then
              parseStringBody fuel ('�' :: acc) cs3
            else
              parseStringBody fuel (Char.ofNat n :: acc) cs3
        else none
    else if c.toNat < 0x20 then none
    else parseStringBody fuel (c :: acc) cs

/-- Take a maximal run of decimal digits. -/
def takeDigits (cs : List Char) : List Char × List Char :=
  (cs.takeWhile Char.isDigit, cs.dropWhile Char.isDigit)

/-- Parse the integer part of a JSON number: `0`, or a nonzero digit
followed by more digits (a leading zero may not be followed by a digit). -/
def parseIntPart : List Char → Option (List Char × List Char)
  | [] => none
  | c :: cs =>
    if c == '0' then some (['0'], cs)
    else if c.isDigit then
      let (d, r) := takeDigits cs
      some (c :: d, r)
    else none

/-- Parse a JSON number lexeme (`-?(0|[1-9][0-9]*)(\.[0-9]+)?([eE][+-]?[0-9]+)?`),
returning the lexeme and the rest of the input. -/
def parseNumber (cs : List Char) : Option (String × List Char) :=
  let (negPart, cs1) :=
    match cs with
    | '-' :: rest => (['-'], rest)
    | _ => ([], cs)
  match parseIntPart cs1 with
  | none => none
  | some (ip, cs2) =>
    let contFrac : Option (List Char × List Char) :=
      match cs2 with
      | '.' :: cs3 =>
        let (d, r) := takeDigits cs3
        if d.isEmpty then none else some ('.' :: d, r)
      | _ => some ([], cs2)
    match contFrac with
    | none => none
    | some (fp, cs4) =>
      let contExp : Option (List Char × List Char) :=
        match cs4 with
        | e :: cs5 =>
          if e == 'e' || e == 'E' then
            let (sgn, cs6) :=
              match cs5 with
              | s :: cs6 => if s == '+' || s == '-' then ([s], cs6) else ([], cs5)
              | [] => ([], cs5)
            let (d, r) := takeDigits cs6
            if d.isEmpty then none else some (e :: (sgn ++ d), r)
          else some ([], cs4)
        | [] => some ([], cs4)
      match contExp with
      | none => none
      | some (ep, cs7) => some (String.mk (negPart ++ ip ++ fp ++ ep), cs7)

/-- Match a literal tail (used for `null`, `true`, `false`). -/
def expectLit : List Char → List Char → Json → Option (Json × List Char)
  | [], rest, v => some (v, rest)
  | _ :: _, [], _ => none
  | l :: ls, c :: cs, v => if c == l then expectLit ls cs v else none

mutual

/-- Parse one JSON value (after skipping leading whitespace), mirroring
the grammar accepted by the `encoding/json` scanner.  `fuel` bounds the
recursion depth; `parseJson` supplies enough of it for any input of the
given length. -/
def parseValue : Nat → List Char → Option (Json × List Char)
  | 0, _ => none
  | fuel + 1, cs =>
    match skipWs cs with
    | [] => none
    | c :: rest =>
      if c == 'n' then expectLit ['u', 'l', 'l'] rest Json.null
      else if c == 't' then expectLit ['r', 'u', 'e'] rest (Json.bool true)
      else if c == 'f' then expectLit ['a', 'l', 's', 'e'] rest (Json.bool false)
      else if c == '"' then
        match parseStringBody (rest.length + 1) [] rest with
        | some (s, r) => some (Json.str s, r)
        | none => none
      else if c == '\x7b' then parseObjBody fuel rest
      else if c == '[' then parseArrBody fuel rest
      else if c == '-' || c.isDigit then
        match parseNumber (c :: rest) with
        | some (s, r) => some (Json.num s, r)
        | none => none
      else none

/-- Parse the remainder of an array after `[`. -/
def parseArrBody : Nat → List Char → Option (Json × List Char)
  | 0, _ => none
  | fuel + 1, cs =>
    match skipWs cs with
    | ']' :: rest => some (Json.arr [], rest)
    | cs' => parseArrItems fuel cs' []

/-- Parse the comma-separated items of a nonempty array; `acc` holds the
items read so far. -/
def parseArrItems : Nat → List Char → List Json → Option (Json × List Char)
  | 0, _, _ => none
  | fuel + 1, cs, acc =>
    match parseValue fuel cs with
    | none => none
    | some (v, rest) =>
      match skipWs rest with
      | ',' :: rest2 => parseArrItems fuel rest2 (acc ++ [v])
      | ']' :: rest2 => some (Json.arr (acc ++ [v]), rest2)
      | _ => none

/-- Parse the remainder of an object after the opening brace. -/
def parseObjBody : Nat → List Char → Option (Json × List Char)
  | 0, _ => none
  | fuel + 1, cs =>
    match skipWs cs with
    | '\x7d' :: rest => some (Json.obj [], rest)
    | cs' => parseObjMembers fuel cs' []

/-- Parse the comma-separated `"key": value` members of a nonempty
object; `acc` holds the members read so far. -/
def parseObjMembers : Nat → List Char → List (String × Json) → Option (Json × List Char)
  | 0, _, _ => none
  | fuel + 1, cs, acc =>
    match skipWs cs with
    | '"' :: rest =>
      match parseStringBody (rest.length + 1) [] rest with
      | none => none
      | some (k, rest1) =>
        match skipWs rest1 with
        | ':' :: rest2 =>
          match parseValue fuel rest2 with
          | none => none
          | some (v, rest3) =>
            match skipWs rest3 with
            | ',' :: rest4 => parseObjMembers fuel rest4 (acc ++ [(k, v)])
            | '\x7d' :: rest4 => some (Json.obj (acc ++ [(k, v)]), rest4)
            | _ => none
        | _ => none
    | _ => none

end

/-- Parse a complete payload as `json.Unmarshal` scans it: one JSON
value, optionally surrounded by whitespace, with nothing after it.
`none` models a syntax error.  The fuel `3 * length + 3` dominates the
recursion depth: every descent through `parseValue`, `parseObjBody` or
`parseArrBody`, and `parseObjMembers` or `parseArrItems` spends three
units and consumes at least one input character. -/
def parseJson (s : String) : Option Json :=
  match parseValue (3 * s.length + 3) s.data with
  | some (v, rest) =>
    match skipWs rest with
    | [] => some v
    | _ :: _ => none
  | none => none

/-! ## Data model (the structs of src/main.go) -/

/-- The anonymous `Repository` struct nested in `GitHubPushEvent`
(src/main.go lines 44-47): one field, json tag `full_name`. -/
structure Repository where
  fullName : String
deriving Repr, DecidableEq

/-- `GitHubPushEvent` (src/main.go lines 43-48): json tags `ref` and
`repository`. -/
structure GitHubPushEvent where
  ref : String
  repository : Repository
deriving Repr, DecidableEq

/-- The Go zero value of `GitHubPushEvent`: all strings empty. -/
def emptyEvent : GitHubPushEvent := ⟨"", ⟨""⟩⟩

/-- `FilterRule` (src/main.go lines 34-40), field names as in the json
tags: `repo`, `branch`, `type`, `dir`, `commands`. -/
structure FilterRule where
  repo : String
  branch : String
  type : String
  dir : String
  commands : List String
deriving Repr, DecidableEq

/-- The Go zero value of `FilterRule`: empty strings and a nil slice. -/
def emptyRule : FilterRule := ⟨"", "", "", "", []⟩

/-! ## json.Unmarshal into the two struct types

`encoding/json` walks the entries of a JSON object in input order and,
for each entry whose key matches a struct field name — exactly, or
under the case-folded fallback — stores the value into that field (so a
later duplicate key overwrites an earlier one).  A `null` value is a
no-op for any field.  A value of the wrong type makes `Unmarshal`
return a non-nil error.  Keys matching no field are ignored. -/

/-- One character of Go's `foldName`: ASCII lowercase letters are
uppercased; of the non-ASCII runes, only U+017F (long s) and U+212A
(Kelvin sign) have a case-fold orbit reaching ASCII — `foldName`
replaces them by `S` and `K` — while every other rune stays non-ASCII
under folding, so leaving it unchanged compares identically against the
all-ASCII field names of this program. -/
def foldChar (c : Char) : Char :=
  let n := c.toNat
  if 97 ≤ n && n ≤ 122 then Char.ofNat (n - 32)
  else if n = 0x17F then 'S'
  else if n = 0x212A then 'K'
  else c

/-- Key-to-field matching of `json.Unmarshal`: the key names the field
when it equals the field name exactly or after case folding
(`bytes.EqualFold`); exact equality is subsumed by fold equality here
because the two candidate field names of each struct never fold
together. -/
def nameMatches (key fieldName : String) : Bool :=
  key.data.map foldChar == fieldName.data.map foldChar

/-- Apply one object entry to the nested repository struct: a key
matching `full_name` takes a string (or `null`, a no-op); any other key
is ignored. -/
def setRepoField (rep : Repository) (entry : String × Json) : Except String Repository :=
  if nameMatches entry.1 "full_name" then
    match entry.2 with
    | Json.str s => Except.ok ⟨s⟩
    | Json.null => Except.ok rep
    | _ => Except.error "cannot unmarshal value into field full_name of type string"
  else Except.ok rep

/-- Unmarshal a JSON value into the nested repository struct: an object
is folded entry by entry, `null` is a no-op, anything else is a type
error. -/
def unmarshalRepository (rep : Repository) : Json → Except String Repository
  | Json.null => Except.ok rep
  | Json.obj fields => fields.foldlM setRepoField rep
  | _ => Except.error "cannot unmarshal value into field repository of type struct"

/-- Apply one top-level object entry to a `GitHubPushEvent`: a key
matching `ref` takes a string, a key matching `repository` takes a
nested object; other keys are ignored. -/
def setEventField (ev : GitHubPushEvent) (entry : String × Json) : Except String GitHubPushEvent :=
  if nameMatches entry.1 "ref" then
    match entry.2 with
    | Json.str s => Except.ok { ev with ref := s }
    | Json.null => Except.ok ev
    | _ => Except.error "cannot unmarshal value into field ref of type string"
  else if nameMatches entry.1 "repository" then
    (unmarshalRepository ev.repository entry.2).map fun rep => { ev with repository := rep }
  else Except.ok ev

/-- Unmarshal a JSON value into a `GitHubPushEvent` starting from the Go
zero value: the top level must be an object (or `null`, which leaves the
zero value); any other value is a type error. -/
def unmarshalEvent : Json → Except String GitHubPushEvent
  | Json.null => Except.ok emptyEvent
  | Json.obj fields => fields.foldlM setEventField emptyEvent
  | _ => Except.error "cannot unmarshal value into GitHubPushEvent"

/-- The decode step of `handleWebhookMessage` (src/main.go lines
131-134): `json.Unmarshal([]byte(payload), &event)`.  A syntax error or
a type error yields `Except.error` (the non-nil `err` branch). -/
def decodeEvent (payload : String) : Except String GitHubPushEvent :=
  match parseJson payload with
  | none => Except.error "invalid character in payload"
  | some j => unmarshalEvent j

/-- Decode a JSON array of strings into a `[]string` (`null` entries are
not allowed inside the array; a non-string entry is a type error). -/
def strListFromJson : List Json → Except String (List String)
  | [] => Except.ok []
  | Json.str s :: rest => (strListFromJson rest).map fun l => s :: l
  | _ :: _ => Except.error "cannot unmarshal value into []string element"

/-- Apply one object entry to a `FilterRule` (the downstream decoding of
a queue item, and the element decoding of `loadFilterRules`). -/
def setRuleField (r : FilterRule) (entry : String × Json) : Except String FilterRule :=
  if nameMatches entry.1 "repo" then
    match entry.2 with
    | Json.str s => Except.ok { r with repo := s }
    | Json.null => Except.ok r
    | _ => Except.error "cannot unmarshal value into field repo of type string"
  else if nameMatches entry.1 "branch" then
    match entry.2 with
    | Json.str s => Except.ok { r with branch := s }
    | Json.null => Except.ok r
    | _ => Except.error "cannot unmarshal value into field branch of type string"
  else if nameMatches entry.1 "type" then
    match entry.2 with
    | Json.str s => Except.ok { r with type := s }
    | Json.null => Except.ok r
    | _ => Except.error "cannot unmarshal value into field type of type string"
  else if nameMatches entry.1 "dir" then
    match entry.2 with
    | Json.str s => Except.ok { r with dir := s }
    | Json.null => Except.ok r
    | _ => Except.error "cannot unmarshal value into field dir of type string"
  else if nameMatches entry.1 "commands" then
    match entry.2 with
    | Json.arr xs => (strListFromJson xs).map fun cs => { r with commands := cs }
    | Json.null => Except.ok r
    | _ => Except.error "cannot unmarshal value into field commands of type []string"
  else Except.ok r

/-- Unmarshal a JSON value into a `FilterRule` starting from the Go zero
value. -/
def unmarshalRule : Json → Except String FilterRule
  | Json.null => Except.ok emptyRule
  | Json.obj fields => fields.foldlM setRuleField emptyRule
  | _ => Except.error "cannot unmarshal value into FilterRule"

/-! ## json.Marshal of a FilterRule -/

/-- The JSON object `json.Marshal` produces for a `FilterRule`: the
struct fields in declaration order, under their json tags. -/
def ruleToJson (r : FilterRule) : Json :=
  Json.obj [("repo", Json.str r.repo), ("branch", Json.str r.branch),
    ("type", Json.str r.type), ("dir", Json.str r.dir),
    ("commands", Json.arr (r.commands.map Json.str))]

/-- The serialize step of `handleWebhookMessage` (src/main.go lines
146-150): `json.Marshal(rule)`.  On a struct made of strings and a
string slice `json.Marshal` never returns an error (errors arise only
from unsupported types such as channels or cyclic values), so this model
always returns `Except.ok`. -/
def marshalRule (r : FilterRule) : Except String Json :=
  Except.ok (ruleToJson r)

/-! ## Rule matching and dispatch -/

/-- The loop condition of `findMatchingRule` (src/main.go line 123):
`rules[i].Repo == repo && rules[i].Branch == branch` — exact,
case-sensitive string equality on both fields. -/
def ruleMatches (r : FilterRule) (repo branch : String) : Bool :=
  r.repo == repo && r.branch == branch

/-- `findMatchingRule` (src/main.go lines 121-128): scan the rules in
order and return the first one whose `Repo` and `Branch` both equal the
arguments; `none` (Go `nil`) when no rule qualifies. -/
def findMatchingRule (rules : List FilterRule) (repo branch : String) : Option FilterRule :=
  match rules with
  | [] => none
  | r :: rest =>
    if ruleMatches r repo branch then some r
    else findMatchingRule rest repo branch

/-- The error taxonomy of `handleWebhookMessage`: the three
`fmt.Errorf` wrappers of src/main.go lines 132, 148 and 153, each
carrying its underlying cause. -/
inductive DispatchErr where
  | decodeErr (cause : String)
  | serializeErr (cause : String)
  | enqueueErr (cause : String)
deriving Repr, DecidableEq

/-- Whether a dispatch return value is the serialize-failure branch. -/
def isSerializeErr : Except DispatchErr Unit → Bool
  | Except.error (DispatchErr.serializeErr _) => true
  | _ => false

/-- Observable outcome of one `handleWebhookMessage` call: the Go return
value (`nil` or a wrapped error), the queue contents after the call, and
the list of `RPush` calls issued (their payloads, in order). -/
structure DispatchResult where
  ret : Except DispatchErr Unit
  queue : List Json
  pushCalls : List Json
deriving Repr

/-- `handleWebhookMessage` (src/main.go lines 130-159), with the Redis
client reduced to the queue contents `queue` and a transport oracle
`pushOk` telling whether the single `RPush` round trip succeeds.  The
steps in source order: unmarshal the payload (error → return the wrapped
decode error), find the first matching rule (`nil` → return success with
no action), marshal the rule (error → return the wrapped serialize
error; unreachable, see `marshalRule`), `RPush` the serialized rule
(failure → return the wrapped enqueue error). -/
def handleWebhookMessage (pushOk : Bool) (rules : List FilterRule)
    (queue : List Json) (payload : String) : DispatchResult :=
  match decodeEvent payload with
  | Except.error e => ⟨Except.error (DispatchErr.decodeErr e), queue, []⟩
  | Except.ok event =>
    match findMatchingRule rules event.repository.fullName event.ref with
    | none => ⟨Except.ok (), queue, []⟩
    | some rule =>
      match marshalRule rule with
      | Except.error e => ⟨Except.error (DispatchErr.serializeErr e), queue, []⟩
      | Except.ok ruleJSON =>
        if pushOk then ⟨Except.ok (), queue ++ [ruleJSON], [ruleJSON]⟩
        else ⟨Except.error (DispatchErr.enqueueErr "failed to push to Redis queue"), queue, [ruleJSON]⟩

/-! ## The subscription loop of main -/

/-- One arrival at the `select` of `main` (src/main.go lines 204-215):
either a pubsub message carrying a payload (with the transport oracle
for its eventual `RPush`), or a shutdown signal. -/
inductive LoopInput where
  | msg (payload : String) (pushOk : Bool)
  | shutdown
deriving Repr, DecidableEq

/-- State owned by the loop: the downstream queue contents, the errors
logged so far (`logError` calls), and whether the loop has returned. -/
structure LoopState where
  queue : List Json
  errLog : List DispatchErr
  stopped : Bool
deriving Repr

/-- The message branch of the `select` (src/main.go lines 206-210): call
`handleWebhookMessage` synchronously, log the error if there is one, and
keep listening. -/
def processMsg (rules : List FilterRule) (s : LoopState)
    (payload : String) (pushOk : Bool) : LoopState :=
  let d := handleWebhookMessage pushOk rules s.queue payload
  { queue := d.queue,
    errLog := s.errLog ++ (match d.ret with
      | Except.error e => [e]
      | Except.ok _ => []),
    stopped := s.stopped }

/-- The `for { select ... } }` loop of `main` (src/main.go lines
204-215) over an explicit interleaved input sequence: a message is
dispatched synchronously and the loop continues; a signal makes the loop
return, ignoring everything after it. -/
def runLoop (rules : List FilterRule) (s : LoopState) : List LoopInput → LoopState
  | [] => s
  | LoopInput.shutdown :: _ => { s with stopped := true }
  | LoopInput.msg p ok :: rest => runLoop rules (processMsg rules s p ok) rest

/-- The queue items one loop input contributes: what its dispatch
appends starting from an empty queue (nothing, for a shutdown signal). -/
def inputDelta (rules : List FilterRule) : LoopInput → List Json
  | LoopInput.msg p ok => (handleWebhookMessage ok rules [] p).queue
  | LoopInput.shutdown => []

/-- Concatenated queue contributions of a sequence of loop inputs, in
arrival order. -/
def deltas (rules : List FilterRule) : List LoopInput → List Json
  | [] => []
  | i :: rest => inputDelta rules i ++ deltas rules rest

/-! ## Observations on JSON objects used to state permissive decoding -/

/-- The value of the last entry whose key targets field `name` under
`json.Unmarshal`'s name matching — the value that ends up in the struct
field, since entries are applied in input order.  `none` means no entry
targets the field (neither exactly nor case-folded). -/
def lastFieldValue (fields : List (String × Json)) (name : String) : Option Json :=
  match fields with
  | [] => none
  | (k, v) :: rest =>
    match lastFieldValue rest name with
    | some v' => some v'
    | none => if nameMatches k name then some v else none

/-- A JSON value a Go string field accepts without error: a string, or
`null` (which `Unmarshal` ignores). -/
def isStrOrNull : Json → Bool
  | Json.str _ => true
  | Json.null => true
  | _ => false

/-- An entry the nested repository struct accepts without error: a key
targeting `full_name` (exactly or case-folded) must carry a string or
`null`; any other key is ignored. -/
def repoEntryOk (e : String × Json) : Bool :=
  if nameMatches e.1 "full_name" then isStrOrNull e.2 else true

/-- A JSON value the `repository` field accepts without error. -/
def repoValueOk : Json → Bool
  | Json.null => true
  | Json.obj fs => fs.all repoEntryOk
  | _ => false

/-- A top-level entry `GitHubPushEvent` accepts without error: a key
targeting `ref` or `repository` (exactly or case-folded) must carry a
value of the field's type; any other key is ignored. -/
def eventEntryOk (e : String × Json) : Bool :=
  if nameMatches e.1 "ref" then isStrOrNull e.2
  else if nameMatches e.1 "repository" then repoValueOk e.2
  else true

/-! ## Concrete material used by the witnesses -/

/-- The rule of the spec scenario: `repo "o/r"`, `branch
"refs/heads/main"`, two commands in order. -/
def demoRule : FilterRule := ⟨"o/r", "refs/heads/main", "", "", ["make build", "make test"]⟩

/-- A one-rule rule set. -/
def demoRules : List FilterRule := [demoRule]

/-- The matching payload of the spec scenario. -/
def demoPayload : String :=
  "\x7b\"ref\":\"refs/heads/main\",\"repository\":\x7b\"full_name\":\"o/r\"\x7d\x7d"

/-- The non-matching payload of the spec scenario (`refs/heads/develop`). -/
def demoNoMatchPayload : String :=
  "\x7b\"ref\":\"refs/heads/develop\",\"repository\":\x7b\"full_name\":\"o/r\"\x7d\x7d"

/-- The decoded form of `demoPayload`. -/
def demoEvent : GitHubPushEvent := ⟨"refs/heads/main", ⟨"o/r"⟩⟩

/-! ## Sanity checks of the embedding on concrete inputs -/

/-- The parser accepts and rejects representative concrete payloads the
way the `encoding/json` scanner does. -/
theorem parseJson_sanity :
    parseJson "null" = some Json.null
    ∧ parseJson "not json" = none
    ∧ parseJson " \x7b \x7d " = some (Json.obj [])
    ∧ parseJson "\x7b\"a\": [1, \"x\"]\x7d"
        = some (Json.obj [("a", Json.arr [Json.num "1", Json.str "x"])])
    ∧ parseJson "\x7b\"a\":0\x7d trailing" = none
    ∧ parseJson "01" = none
    ∧ parseJson "-12.5e+3" = some (Json.num "-12.5e+3")
    ∧ parseJson "\"a\\u0041\\n\"" = some (Json.str "aA\n") :=
  ⟨rfl, rfl, rfl, rfl, rfl, rfl, rfl, rfl⟩

/-- The event decoder behaves like `json.Unmarshal` on representative
concrete payloads: permissive on absent fields, strict on types, and a
key differing from a field name only in case still targets the field
(the case-folded fallback). -/
theorem decodeEvent_sanity :
    decodeEvent demoPayload = Except.ok demoEvent
    ∧ decodeEvent "not json" = Except.error "invalid character in payload"
    ∧ decodeEvent "\x7b\x7d" = Except.ok emptyEvent
    ∧ decodeEvent "null" = Except.ok emptyEvent
    ∧ decodeEvent "\x7b\"ref\":5\x7d"
        = Except.error "cannot unmarshal value into field ref of type string"
    ∧ decodeEvent "\x7b\"Ref\":5\x7d"
        = Except.error "cannot unmarshal value into field ref of type string"
    ∧ decodeEvent "\x7b\"REF\":\"x\"\x7d" = Except.ok ⟨"x", ⟨""⟩⟩
    ∧ decodeEvent "\x7b\"repository\":\x7b\"Full_Name\":5\x7d\x7d"
        = Except.error "cannot unmarshal value into field full_name of type string" :=
  ⟨rfl, rfl, rfl, rfl, rfl, rfl, rfl, rfl⟩

/-! ## Helper lemmas about findMatchingRule -/

/-- If no rule matches, the scan returns `none`. -/
theorem findMatchingRule_eq_none {repo branch : String} :
    ∀ {rules : List FilterRule}, (∀ r ∈ rules, ruleMatches r repo branch = false) →
      findMatchingRule rules repo branch = none := by
  intro rules h
  induction rules with
  | nil => rfl
  | cons r rest ih =>
    have h0 : ruleMatches r repo branch = false := h r (List.mem_cons_self r rest)
    simp only [findMatchingRule, h0, Bool.false_eq_true, if_false]
    exact ih fun r' hr' => h r' (List.mem_cons_of_mem r hr')

/-- If the rule at index `i` matches and no earlier one does, the scan
returns exactly that rule. -/
theorem findMatchingRule_eq_get {repo branch : String} :
    ∀ (rules : List FilterRule) (i : Nat) (h : i < rules.length),
      ruleMatches (rules.get ⟨i, h⟩) repo branch = true →
      (∀ (j : Nat) (hj : j < rules.length), j < i →
        ruleMatches (rules.get ⟨j, hj⟩) repo branch = false) →
      findMatchingRule rules repo branch = some (rules.get ⟨i, h⟩) := by
  intro rules
  induction rules with
  | nil => intro i h; exact absurd h (by simp)
  | cons r rest ih =>
    intro i h hm hearly
    cases i with
    | zero =>
      simp only [List.get] at hm ⊢
      simp [findMatchingRule, hm]
    | succ n =>
      have h0 : ruleMatches r repo branch = false :=
        hearly 0 (by simp) (Nat.succ_pos n)
      simp only [List.get] at hm ⊢
      simp only [findMatchingRule, h0, Bool.false_eq_true, if_false]
      exact ih n (by simpa using h) hm fun j hj hji =>
        hearly (j + 1) (by simpa using hj) (by omega)

/-- C1: `findMatchingRule` is first-match-wins on exact (repo, branch)
equality, and returns `none` (not an error) when nothing matches. -/
theorem claim1_first_match_wins (rules : List FilterRule) (repo branch : String) :
    (∀ (i : Nat) (h : i < rules.length),
        ruleMatches (rules.get ⟨i, h⟩) repo branch = true →
        (∀ (j : Nat) (hj : j < rules.length), j < i →
          ruleMatches (rules.get ⟨j, hj⟩) repo branch = false) →
        findMatchingRule rules repo branch = some (rules.get ⟨i, h⟩))
    ∧ ((∀ r ∈ rules, ruleMatches r repo branch = false) →
        findMatchingRule rules repo branch = none) :=
  ⟨fun i h hm hearly => findMatchingRule_eq_get rules i h hm hearly,
   fun h => findMatchingRule_eq_none h⟩

/-- Witness for C1: in a two-rule set whose second entry duplicates the
matched pair, the scan returns the first entry; on a pair not in the
set, it returns `none`. -/
theorem claim1_witness :
    findMatchingRule [demoRule, ⟨"o/r", "refs/heads/main", "", "", ["other"]⟩] "o/r" "refs/heads/main"
      = some demoRule
    ∧ findMatchingRule demoRules "o/r" "refs/heads/develop" = none := by
  constructor
  · exact (claim1_first_match_wins
      [demoRule, ⟨"o/r", "refs/heads/main", "", "", ["other"]⟩] "o/r" "refs/heads/main").1
      0 (by decide) (by decide) (by intro j hj hji; omega)
  · exact (claim1_first_match_wins demoRules "o/r" "refs/heads/develop").2 (by decide)

/-- C3: a payload that is not syntactically valid JSON makes dispatch
return the wrapped decode error and leaves the queue untouched, with no
`RPush` call. -/
theorem claim3_decode_failure_atomic (pushOk : Bool) (rules : List FilterRule)
    (queue : List Json) (payload : String) (h : parseJson payload = none) :
    handleWebhookMessage pushOk rules queue payload
      = ⟨Except.error (DispatchErr.decodeErr "invalid character in payload"), queue, []⟩ := by
  simp [handleWebhookMessage, decodeEvent, h]

/-- Witness for C3 at the spec scenario payload `"not json"`. -/
theorem claim3_witness :
    handleWebhookMessage true demoRules [] "not json"
      = ⟨Except.error (DispatchErr.decodeErr "invalid character in payload"), [], []⟩ :=
  claim3_decode_failure_atomic true demoRules [] "not json" (by rfl)

/-- Counterexample for C4: on a decoded payload with no matching rule
`handleWebhookMessage` returns the very same value (`nil` error, Go line
141) as on a matched-and-enqueued payload (line 158), so the two
outcomes are not distinguishable from the returned result; they differ
only in the queue effect. -/
theorem claim4_counterexample :
    (handleWebhookMessage true demoRules [] demoNoMatchPayload).ret
      = (handleWebhookMessage true demoRules [] demoPayload).ret
    ∧ (handleWebhookMessage true demoRules [] demoNoMatchPayload).pushCalls.length = 0
    ∧ (handleWebhookMessage true demoRules [] demoPayload).pushCalls.length = 1 :=
  ⟨rfl, rfl, rfl⟩

/-- C4 (amended): when dispatch decodes a payload but finds no matching
rule it returns success (the same `nil` value the enqueued path returns)
and performs no queue append and no `RPush` call. -/
theorem claim4_no_match_noop (pushOk : Bool) (rules : List FilterRule)
    (queue : List Json) (payload : String) (ev : GitHubPushEvent)
    (hdec : decodeEvent payload = Except.ok ev)
    (hmatch : findMatchingRule rules ev.repository.fullName ev.ref = none) :
    handleWebhookMessage pushOk rules queue payload = ⟨Except.ok (), queue, []⟩ := by
  simp [handleWebhookMessage, hdec, hmatch]

/-- Witness for C4 at the spec scenario: same one-rule set, payload for
`refs/heads/develop`. -/
theorem claim4_witness :
    handleWebhookMessage true demoRules [] demoNoMatchPayload = ⟨Except.ok (), [], []⟩ :=
  claim4_no_match_noop true demoRules [] demoNoMatchPayload ⟨"refs/heads/develop", ⟨"o/r"⟩⟩
    (by rfl) (by rfl)

/-- C9: the serialize-failure branch of `handleWebhookMessage` is
unreachable — `json.Marshal` of an in-memory `FilterRule` (strings and a
string slice) cannot fail, so no dispatch ever returns a
`SerializeError`. -/
theorem claim9_serialize_error_unreachable (pushOk : Bool) (rules : List FilterRule)
    (queue : List Json) (payload : String) :
    isSerializeErr (handleWebhookMessage pushOk rules queue payload).ret = false := by
  rcases hd : decodeEvent payload with e | ev
  · simp [handleWebhookMessage, hd, isSerializeErr]
  · rcases hm : findMatchingRule rules ev.repository.fullName ev.ref with _ | r
    · simp [handleWebhookMessage, hd, hm, isSerializeErr]
    · cases pushOk <;> simp [handleWebhookMessage, hd, hm, marshalRule, isSerializeErr]

/-! ## Serialize/deserialize round trip of a rule -/

/-- Decoding a list of string atoms gives back the original strings. -/
theorem strListFromJson_map_str (l : List String) :
    strListFromJson (l.map Json.str) = Except.ok l := by
  induction l with
  | nil => rfl
  | cons s rest ih => simp [strListFromJson, ih, Except.map]

/-- Unmarshal inverts marshal on every `FilterRule`. -/
theorem unmarshalRule_ruleToJson (r : FilterRule) :
    unmarshalRule (ruleToJson r) = Except.ok r := by
  cases r with
  | mk repo branch ty dir commands =>
    have h : unmarshalRule (ruleToJson (FilterRule.mk repo branch ty dir commands))
        = ((strListFromJson (commands.map Json.str)).map
            (fun cs => FilterRule.mk repo branch ty dir cs)) >>= (fun a => pure a) := rfl
    rw [h, strListFromJson_map_str]
    rfl

/-- C2: on a decodable payload whose event matches a rule, dispatch
issues exactly one `RPush` whose content is the marshalled matched rule,
the queue grows by exactly that item, and deserializing the item gives
back the matched rule — in particular its `repo`, `branch` and
`commands` (in order). -/
theorem claim2_dispatch_roundtrip (rules : List FilterRule) (queue : List Json)
    (payload : String) (ev : GitHubPushEvent) (r : FilterRule)
    (hdec : decodeEvent payload = Except.ok ev)
    (hmatch : findMatchingRule rules ev.repository.fullName ev.ref = some r) :
    handleWebhookMessage true rules queue payload
      = ⟨Except.ok (), queue ++ [ruleToJson r], [ruleToJson r]⟩
    ∧ unmarshalRule (ruleToJson r) = Except.ok r := by
  constructor
  · simp [handleWebhookMessage, hdec, hmatch, marshalRule]
  · exact unmarshalRule_ruleToJson r

/-- Witness for C2 at the spec scenario: one rule with two commands, the
matching payload; one append, round-tripping to the original rule. -/
theorem claim2_witness :
    handleWebhookMessage true demoRules [] demoPayload
      = ⟨Except.ok (), [ruleToJson demoRule], [ruleToJson demoRule]⟩
    ∧ unmarshalRule (ruleToJson demoRule) = Except.ok demoRule :=
  claim2_dispatch_roundtrip demoRules [] demoPayload demoEvent demoRule (by rfl) (by rfl)

/-- C10: one dispatch issues at most one `RPush` call — none when
decoding fails or no rule matches, and exactly one, carrying the first
matching rule, when a rule matches. -/
theorem claim10_at_most_one_append (pushOk : Bool) (rules : List FilterRule)
    (queue : List Json) (payload : String) :
    (handleWebhookMessage pushOk rules queue payload).pushCalls.length ≤ 1
    ∧ (∀ e, decodeEvent payload = Except.error e →
        (handleWebhookMessage pushOk rules queue payload).pushCalls = [])
    ∧ (∀ ev, decodeEvent payload = Except.ok ev →
        findMatchingRule rules ev.repository.fullName ev.ref = none →
        (handleWebhookMessage pushOk rules queue payload).pushCalls = [])
    ∧ (∀ ev r, decodeEvent payload = Except.ok ev →
        findMatchingRule rules ev.repository.fullName ev.ref = some r →
        (handleWebhookMessage pushOk rules queue payload).pushCalls = [ruleToJson r]) := by
  rcases hd : decodeEvent payload with e0 | ev0
  · refine ⟨?_, ?_, ?_, ?_⟩
    · simp [handleWebhookMessage, hd]
    · intro e _; simp [handleWebhookMessage, hd]
    · intro ev hev; simp at hev
    · intro ev r hev; simp at hev
  · rcases hm : findMatchingRule rules ev0.repository.fullName ev0.ref with _ | r0
    · refine ⟨?_, ?_, ?_, ?_⟩
      · simp [handleWebhookMessage, hd, hm]
      · intro e he; simp at he
      · intro ev _ _; simp [handleWebhookMessage, hd, hm]
      · intro ev r hev hr
        injection hev with h; subst h
        rw [hm] at hr; simp at hr
    · have hcall : (handleWebhookMessage pushOk rules queue payload).pushCalls
          = [ruleToJson r0] := by
        cases pushOk <;> simp [handleWebhookMessage, hd, hm, marshalRule]
      refine ⟨by simp [hcall], ?_, ?_, ?_⟩
      · intro e he; simp at he
      · intro ev hev hnone
        injection hev with h; subst h
        rw [hm] at hnone; simp at hnone
      · intro ev r hev hr
        injection hev with h; subst h
        rw [hm] at hr
        injection hr with h2; subst h2
        exact hcall

/-- Witness for C10 at the spec scenario: exactly one `RPush`, carrying
the first matching rule. -/
theorem claim10_witness :
    (handleWebhookMessage true demoRules [] demoPayload).pushCalls.length ≤ 1
    ∧ (handleWebhookMessage true demoRules [] demoPayload).pushCalls
        = [ruleToJson demoRule] :=
  ⟨(claim10_at_most_one_append true demoRules [] demoPayload).1,
   (claim10_at_most_one_append true demoRules [] demoPayload).2.2.2 demoEvent demoRule
     (by rfl) (by rfl)⟩

/-! ## Empty event fields and matching (C6) -/

/-- Counterexample for C6: the code accepts a rule whose `repo` and
`branch` are both empty (nothing validates loaded rules), and a payload
`"\x7b\x7d"` decodes to an event whose fields are both empty — that
event matches the empty rule and the dispatch does append to the queue. -/
theorem claim6_counterexample :
    decodeEvent " \x7b \x7d " = Except.ok emptyEvent
    ∧ emptyEvent.ref = ""
    ∧ emptyEvent.repository.fullName = ""
    ∧ findMatchingRule [emptyRule] emptyEvent.repository.fullName emptyEvent.ref
        = some emptyRule
    ∧ (handleWebhookMessage true [emptyRule] [] " \x7b \x7d ").pushCalls.length = 1 :=
  ⟨rfl, rfl, rfl, rfl, rfl⟩

/-- C6 (amended): an event with an empty `ref` or an empty repository
name matches no rule in a rule set all of whose rules have a non-empty
`repo` and a non-empty `branch`, so dispatching such a payload appends
nothing. -/
theorem claim6_empty_fields_no_match (pushOk : Bool) (rules : List FilterRule)
    (queue : List Json) (payload : String) (ev : GitHubPushEvent)
    (hdec : decodeEvent payload = Except.ok ev)
    (hempty : ev.ref = "" ∨ ev.repository.fullName = "")
    (hrules : ∀ r ∈ rules, r.repo ≠ "" ∧ r.branch ≠ "") :
    findMatchingRule rules ev.repository.fullName ev.ref = none
    ∧ handleWebhookMessage pushOk rules queue payload = ⟨Except.ok (), queue, []⟩ := by
  have hnone : findMatchingRule rules ev.repository.fullName ev.ref = none := by
    apply findMatchingRule_eq_none
    intro r hr
    rcases hrules r hr with ⟨hrepo, hbranch⟩
    rcases hempty with h | h
    · have hb : (r.branch == ev.ref) = false := by
        rw [h]; exact beq_eq_false_iff_ne.mpr hbranch
      simp [ruleMatches, hb]
    · have hb : (r.repo == ev.repository.fullName) = false := by
        rw [h]; exact beq_eq_false_iff_ne.mpr hrepo
      simp [ruleMatches, hb]
  exact ⟨hnone, by simp [handleWebhookMessage, hdec, hnone]⟩

/-- Witness for C6 (amended): payload `"\x7b\x7d"` against the demo rule
set (non-empty repo and branch) matches nothing and appends nothing. -/
theorem claim6_witness :
    findMatchingRule demoRules emptyEvent.repository.fullName emptyEvent.ref = none
    ∧ handleWebhookMessage true demoRules [] "\x7b\x7d" = ⟨Except.ok (), [], []⟩ :=
  claim6_empty_fields_no_match true demoRules [] "\x7b\x7d" emptyEvent (by rfl)
    (Or.inl rfl) (by decide)

/-! ## Permissive decoding (C5) -/

/-- A field targeted by no entry of a cons cell is targeted neither by
the head entry nor by any entry of the tail. -/
theorem lastFieldValue_cons_none {k : String} {v : Json} {rest : List (String × Json)}
    {name : String} (h : lastFieldValue ((k, v) :: rest) name = none) :
    nameMatches k name = false ∧ lastFieldValue rest name = none := by
  simp only [lastFieldValue] at h
  rcases hr : lastFieldValue rest name with _ | v'
  · rw [hr] at h
    refine ⟨?_, rfl⟩
    cases hk : nameMatches k name
    · rfl
    · rw [hk] at h
      simp at h
  · rw [hr] at h
    cases h

/-- Folding well-typed entries into the repository struct never errors. -/
theorem foldlM_setRepoField_ok :
    ∀ (fs : List (String × Json)) (rep : Repository),
      (∀ e ∈ fs, repoEntryOk e = true) →
      ∃ rep', fs.foldlM setRepoField rep = Except.ok rep'
  | [], rep, _ => ⟨rep, rfl⟩
  | (k, v) :: fs, rep, hok => by
    have hk : repoEntryOk (k, v) = true := hok (k, v) (List.mem_cons_self _ _)
    have step : ∃ rep1, setRepoField rep (k, v) = Except.ok rep1 := by
      cases hkey : nameMatches k "full_name" with
      | false => exact ⟨rep, by simp [setRepoField, hkey]⟩
      | true =>
        have hv : isStrOrNull v = true := by simpa [repoEntryOk, hkey] using hk
        cases v with
        | null => exact ⟨rep, by simp [setRepoField, hkey]⟩
        | str s => exact ⟨⟨s⟩, by simp [setRepoField, hkey]⟩
        | bool b => simp [isStrOrNull] at hv
        | num s => simp [isStrOrNull] at hv
        | arr xs => simp [isStrOrNull] at hv
        | obj fs2 => simp [isStrOrNull] at hv
    obtain ⟨rep1, h1⟩ := step
    obtain ⟨rep', h2⟩ :=
      foldlM_setRepoField_ok fs rep1 (fun e he => hok e (List.mem_cons_of_mem _ he))
    exact ⟨rep', by rw [List.foldlM_cons, h1]; exact h2⟩

/-- A well-typed value for the `repository` field unmarshals without
error. -/
theorem unmarshalRepository_ok (rep : Repository) (v : Json)
    (hv : repoValueOk v = true) :
    ∃ rep', unmarshalRepository rep v = Except.ok rep' := by
  cases v with
  | null => exact ⟨rep, rfl⟩
  | obj fs =>
    exact foldlM_setRepoField_ok fs rep (by simpa [repoValueOk, List.all_eq_true] using hv)
  | bool b => simp [repoValueOk] at hv
  | num s => simp [repoValueOk] at hv
  | str s => simp [repoValueOk] at hv
  | arr xs => simp [repoValueOk] at hv

/-- One well-typed top-level entry applies without error and only
touches the field its key targets. -/
theorem setEventField_spec (ev : GitHubPushEvent) (entry : String × Json)
    (hok : eventEntryOk entry = true) :
    ∃ ev', setEventField ev entry = Except.ok ev'
      ∧ (nameMatches entry.1 "ref" = false → ev'.ref = ev.ref)
      ∧ (nameMatches entry.1 "repository" = false → ev'.repository = ev.repository) := by
  obtain ⟨k, v⟩ := entry
  cases hkey : nameMatches k "ref" with
  | true =>
    have hv : isStrOrNull v = true := by simpa [eventEntryOk, hkey] using hok
    cases v with
    | str s =>
      refine ⟨{ ev with ref := s }, by simp [setEventField, hkey], ?_, fun _ => rfl⟩
      intro h; cases h
    | null => exact ⟨ev, by simp [setEventField, hkey], fun _ => rfl, fun _ => rfl⟩
    | bool b => simp [isStrOrNull] at hv
    | num s => simp [isStrOrNull] at hv
    | arr xs => simp [isStrOrNull] at hv
    | obj fs => simp [isStrOrNull] at hv
  | false =>
    cases hkey2 : nameMatches k "repository" with
    | true =>
      have hrv : repoValueOk v = true := by simpa [eventEntryOk, hkey, hkey2] using hok
      obtain ⟨rep', hrep⟩ := unmarshalRepository_ok ev.repository v hrv
      refine ⟨{ ev with repository := rep' }, ?_, fun _ => rfl, ?_⟩
      · simp [setEventField, hkey, hkey2, hrep, Except.map]
      · intro h; cases h
    | false =>
      exact ⟨ev, by simp [setEventField, hkey, hkey2], fun _ => rfl, fun _ => rfl⟩

/-- Folding well-typed top-level entries never errors, and a field
targeted by no entry keeps its starting value. -/
theorem foldlM_setEventField_spec :
    ∀ (fields : List (String × Json)) (ev : GitHubPushEvent),
      (∀ e ∈ fields, eventEntryOk e = true) →
      ∃ ev', fields.foldlM setEventField ev = Except.ok ev'
        ∧ (lastFieldValue fields "ref" = none → ev'.ref = ev.ref)
        ∧ (lastFieldValue fields "repository" = none → ev'.repository = ev.repository)
  | [], ev, _ => ⟨ev, rfl, fun _ => rfl, fun _ => rfl⟩
  | (k, v) :: fields, ev, hok => by
    obtain ⟨ev1, h1, href1, hrep1⟩ :=
      setEventField_spec ev (k, v) (hok _ (List.mem_cons_self _ _))
    obtain ⟨ev', h2, href2, hrep2⟩ :=
      foldlM_setEventField_spec fields ev1 (fun e he => hok e (List.mem_cons_of_mem _ he))
    refine ⟨ev', by rw [List.foldlM_cons, h1]; exact h2, ?_, ?_⟩
    · intro habs
      obtain ⟨hne, hrest⟩ := lastFieldValue_cons_none habs
      rw [href2 hrest, href1 hne]
    · intro habs
      obtain ⟨hne, hrest⟩ := lastFieldValue_cons_none habs
      rw [hrep2 hrest, hrep1 hne]

/-- C5: a syntactically valid object payload whose present fields are
well typed decodes successfully — the absence of `ref` or of the
`repository` object is never itself a decode failure — and a field
targeted by no key (exactly or case-folded, as `json.Unmarshal`
matches) is left as the empty string. -/
theorem claim5_absent_fields_decode_empty (payload : String)
    (fields : List (String × Json))
    (hparse : parseJson payload = some (Json.obj fields))
    (hok : ∀ e ∈ fields, eventEntryOk e = true) :
    ∃ ev, decodeEvent payload = Except.ok ev
      ∧ (lastFieldValue fields "repository" = none → ev.repository.fullName = "")
      ∧ (lastFieldValue fields "ref" = none → ev.ref = "") := by
  obtain ⟨ev', h, href, hrep⟩ := foldlM_setEventField_spec fields emptyEvent hok
  refine ⟨ev', ?_, ?_, ?_⟩
  · simp [decodeEvent, hparse, unmarshalEvent, h]
  · intro habs; rw [hrep habs]; rfl
  · intro habs; rw [href habs]; rfl

/-- Witness for C5: a payload with `ref` but no `repository` object
decodes successfully to an event with an empty repository name. -/
theorem claim5_witness :
    ∃ ev, decodeEvent "\x7b\"ref\":\"refs/heads/main\"\x7d" = Except.ok ev
      ∧ ev.repository.fullName = "" := by
  obtain ⟨ev, hdec, hrep, _⟩ :=
    claim5_absent_fields_decode_empty "\x7b\"ref\":\"refs/heads/main\"\x7d"
      [("ref", Json.str "refs/heads/main")] (by rfl) (by decide)
  exact ⟨ev, hdec, hrep (by rfl)⟩

/-! ## The loop: isolation of failures (C7) and ordering (C8) -/

/-- The queue after a dispatch is the starting queue followed by what
the same dispatch appends to an empty queue. -/
theorem handleWebhookMessage_queue_append (pushOk : Bool) (rules : List FilterRule)
    (queue : List Json) (payload : String) :
    (handleWebhookMessage pushOk rules queue payload).queue
      = queue ++ (handleWebhookMessage pushOk rules [] payload).queue := by
  rcases hd : decodeEvent payload with e | ev
  · simp [handleWebhookMessage, hd]
  · rcases hm : findMatchingRule rules ev.repository.fullName ev.ref with _ | r
    · simp [handleWebhookMessage, hd, hm]
    · cases pushOk <;> simp [handleWebhookMessage, hd, hm, marshalRule]

/-- Processing one message extends the queue by that message's
contribution. -/
theorem processMsg_queue (rules : List FilterRule) (s : LoopState)
    (p : String) (ok : Bool) :
    (processMsg rules s p ok).queue = s.queue ++ inputDelta rules (LoopInput.msg p ok) := by
  show (handleWebhookMessage ok rules s.queue p).queue = _
  exact handleWebhookMessage_queue_append ok rules s.queue p

/-- Unfolding of the loop at a message input. -/
theorem runLoop_cons_msg (rules : List FilterRule) (s : LoopState)
    (p : String) (ok : Bool) (rest : List LoopInput) :
    runLoop rules s (LoopInput.msg p ok :: rest)
      = runLoop rules (processMsg rules s p ok) rest := rfl

/-- The loop consumes a shutdown-free prefix and continues from the
state the prefix produced. -/
theorem runLoop_append_of_no_shutdown (rules : List FilterRule) :
    ∀ (a b : List LoopInput) (s : LoopState),
      (∀ i ∈ a, i ≠ LoopInput.shutdown) →
      runLoop rules s (a ++ b) = runLoop rules (runLoop rules s a) b
  | [], _, _, _ => rfl
  | LoopInput.shutdown :: _, _, _, h => absurd rfl (h _ (List.mem_cons_self _ _))
  | LoopInput.msg p ok :: a, b, s, h => by
    simp only [List.cons_append, runLoop]
    exact runLoop_append_of_no_shutdown rules a b _
      (fun i hi => h i (List.mem_cons_of_mem _ hi))

/-- Over a shutdown-free input sequence the queue grows by exactly the
concatenated per-message contributions, in arrival order. -/
theorem runLoop_queue_of_no_shutdown (rules : List FilterRule) :
    ∀ (l : List LoopInput) (s : LoopState),
      (∀ i ∈ l, i ≠ LoopInput.shutdown) →
      (runLoop rules s l).queue = s.queue ++ deltas rules l
  | [], s, _ => by simp [runLoop, deltas]
  | LoopInput.shutdown :: _, _, h => absurd rfl (h _ (List.mem_cons_self _ _))
  | LoopInput.msg p ok :: l, s, h => by
    rw [runLoop_cons_msg,
      runLoop_queue_of_no_shutdown rules l _ (fun i hi => h i (List.mem_cons_of_mem _ hi)),
      processMsg_queue]
    simp [deltas, List.append_assoc]

/-- The loop only ever appends to the queue. -/
theorem runLoop_queue_extend (rules : List FilterRule) :
    ∀ (l : List LoopInput) (s : LoopState),
      ∃ t, (runLoop rules s l).queue = s.queue ++ t
  | [], s => ⟨[], by simp [runLoop]⟩
  | LoopInput.shutdown :: _, s => ⟨[], by simp [runLoop]⟩
  | LoopInput.msg p ok :: l, s => by
    obtain ⟨t, ht⟩ := runLoop_queue_extend rules l (processMsg rules s p ok)
    refine ⟨inputDelta rules (LoopInput.msg p ok) ++ t, ?_⟩
    rw [runLoop_cons_msg, ht, processMsg_queue]
    simp [List.append_assoc]

/-- C7: a message whose dispatch returns an error is logged, leaves the
loop running (`stopped` unchanged), and the loop goes on to process the
remaining inputs — no dispatch outcome terminates the loop. -/
theorem claim7_failure_isolated (rules : List FilterRule) (s : LoopState)
    (payload : String) (pushOk : Bool) (rest : List LoopInput) (e : DispatchErr)
    (herr : (handleWebhookMessage pushOk rules s.queue payload).ret = Except.error e) :
    (processMsg rules s payload pushOk).errLog = s.errLog ++ [e]
    ∧ (processMsg rules s payload pushOk).stopped = s.stopped
    ∧ runLoop rules s (LoopInput.msg payload pushOk :: rest)
        = runLoop rules (processMsg rules s payload pushOk) rest := by
  refine ⟨?_, rfl, rfl⟩
  simp [processMsg, herr]

/-- Witness for C7: the loop logs the decode error of `"not json"` and
continues with the next message. -/
theorem claim7_witness :
    (processMsg demoRules ⟨[], [], false⟩ "not json" true).errLog
      = [DispatchErr.decodeErr "invalid character in payload"]
    ∧ (processMsg demoRules ⟨[], [], false⟩ "not json" true).stopped = false
    ∧ runLoop demoRules ⟨[], [], false⟩
        [LoopInput.msg "not json" true, LoopInput.msg demoPayload true]
      = runLoop demoRules (processMsg demoRules ⟨[], [], false⟩ "not json" true)
        [LoopInput.msg demoPayload true] :=
  claim7_failure_isolated demoRules ⟨[], [], false⟩ "not json" true
    [LoopInput.msg demoPayload true]
    (DispatchErr.decodeErr "invalid character in payload") (by rfl)

/-- C8: messages are dispatched in arrival order, so when two messages
both match rules the first one's rule lands in the queue before the
second one's. -/
theorem claim8_enqueue_order (rules : List FilterRule) (s : LoopState)
    (l1 l2 l3 : List LoopInput) (p1 p2 : String)
    (ev1 ev2 : GitHubPushEvent) (r1 r2 : FilterRule)
    (h1 : ∀ i ∈ l1, i ≠ LoopInput.shutdown)
    (h2 : ∀ i ∈ l2, i ≠ LoopInput.shutdown)
    (hd1 : decodeEvent p1 = Except.ok ev1)
    (hm1 : findMatchingRule rules ev1.repository.fullName ev1.ref = some r1)
    (hd2 : decodeEvent p2 = Except.ok ev2)
    (hm2 : findMatchingRule rules ev2.repository.fullName ev2.ref = some r2) :
    ∃ t, (runLoop rules s
        (l1 ++ LoopInput.msg p1 true :: (l2 ++ LoopInput.msg p2 true :: l3))).queue
      = s.queue ++ deltas rules l1 ++ [ruleToJson r1]
          ++ deltas rules l2 ++ [ruleToJson r2] ++ t := by
  have hida : inputDelta rules (LoopInput.msg p1 true) = [ruleToJson r1] := by
    simp [inputDelta, handleWebhookMessage, hd1, hm1, marshalRule]
  have hidb : inputDelta rules (LoopInput.msg p2 true) = [ruleToJson r2] := by
    simp [inputDelta, handleWebhookMessage, hd2, hm2, marshalRule]
  obtain ⟨t, ht⟩ := runLoop_queue_extend rules l3
    (processMsg rules (runLoop rules (processMsg rules (runLoop rules s l1) p1 true) l2)
      p2 true)
  refine ⟨t, ?_⟩
  rw [runLoop_append_of_no_shutdown rules l1 _ s h1, runLoop_cons_msg,
    runLoop_append_of_no_shutdown rules l2 _ _ h2, runLoop_cons_msg, ht,
    processMsg_queue, runLoop_queue_of_no_shutdown rules l2 _ h2,
    processMsg_queue, runLoop_queue_of_no_shutdown rules l1 _ h1, hida, hidb]

/-- Witness for C8: two matching messages in a row put two copies of the
serialized rule into the queue, first arrival first. -/
theorem claim8_witness :
    ∃ t, (runLoop demoRules ⟨[], [], false⟩
        [LoopInput.msg demoPayload true, LoopInput.msg demoPayload true]).queue
      = ruleToJson demoRule :: ruleToJson demoRule :: t := by
  obtain ⟨t, ht⟩ := claim8_enqueue_order demoRules ⟨[], [], false⟩ [] [] []
    demoPayload demoPayload demoEvent demoEvent demoRule demoRule
    (by simp) (by simp) (by rfl) (by rfl) (by rfl) (by rfl)
  exact ⟨t, by simpa [deltas] using ht⟩
